import Mathlib

/-!
Embedding of the sgemm benchmark harness (`sgemm/sgemm.cpp`) and its verified properties

The host program is embedded function by function.

* C `int` values are `Int`; an `int` result that can leave the 32 bit range
  for `int` inputs is passed through `wrap32` (two's complement).
* `size_t` values are `Nat`.
* A `float*` buffer is a `List Nat` of IEEE-754 binary32 bit patterns; its
  bytes are the little-endian bytes of the words.  The C comparison `c != t`
  on floats is `fne`, defined on the bit patterns.
* `printf`, `fprintf` and `fopen_s` calls are recorded as values (console
  messages, file tokens, an "opened" flag).
* Driver calls wrapped in `CUDA_CHECK` are taken on their success path; a
  failing call leaves the process through `exit(EXIT_FAILURE)` in the macro.
-/

namespace Sgemm


/-! ## Machine integers -/

/-- Value of a mathematical integer stored in a 32 bit two's complement `int`. -/
def wrap32 (z : Int) : Int := (z + 2147483648) % 4294967296 - 2147483648

/-- Constant `EXIT_FAILURE` of `stdlib.h`. -/
def EXIT_FAILURE : Int := 1

/-! ## `main`: device selection (lines 48-67) -/

/-- How the start of `main` ends: the process exits, or a device is kept. -/
inductive Startup where
  | exit (status : Int)
  | device (ordinal : Nat)
  deriving DecidableEq, Repr

/-- The `for (ordinal = 0; ordinal < count; ordinal++)` loop of `main`.
`deviceLoop majors ordinal` runs the loop from `ordinal`, `majors` being the
compute-capability major versions of the devices `ordinal, ordinal+1, ...,
count-1`; the value is `ordinal` when the loop is left (by `break` or because
`ordinal < count` fails). -/
def deviceLoop : List Int → Nat → Nat
  | [], ordinal => ordinal
  | major :: rest, ordinal =>
    if major ≥ 5 then ordinal else deviceLoop rest (ordinal + 1)

/-- Lines 50-67 of `main`: `count` is the number of devices, the loop runs from
ordinal 0, and `ordinal == count` afterwards exits with `EXIT_FAILURE`. -/
def selectDevice (majors : List Int) : Startup :=
  let count := majors.length
  let ordinal := deviceLoop majors 0
  if ordinal = count then Startup.exit EXIT_FAILURE else Startup.device ordinal

/-! ## `main`: argument validation (lines 69-91) -/

/-- The values `main` derives from its arguments. -/
structure Args where
  thread64 : Int
  rep : Int
  printVars : Int
  N : Int
  deriving DecidableEq, Repr

/-- Lines 69-90 of `main`.  `args` holds `atoi(argv[1])`, `atoi(argv[2])`, ...
for the arguments present, so `argc = args.length + 1`. -/
def mainArgs (args : List Int) : Args :=
  let argc : Int := args.length + 1
  let thread64 : Int := 80
  let thread64 := if argc > 1 then args.getD 0 0 else thread64
  let thread64 := if thread64 > 80 ∨ thread64 < 1 then 80 else thread64
  let rep : Int := 1
  let rep := if argc > 2 then args.getD 1 0 else rep
  let rep := if rep > 1000 ∨ rep < 1 then 1 else rep
  let printVars : Int := 0
  let printVars := if argc > 3 then args.getD 2 0 else printVars
  let printVars := if printVars > 100 ∨ printVars < 1 then 0 else printVars
  let N := thread64 * 64
  { thread64 := thread64, rep := rep, printVars := printVars, N := N }

/-! ## `assemblySgemm`: launch geometry (lines 186-199) -/

/-- The launch geometry computed at the start of `assemblySgemm`. -/
structure LaunchGeometry where
  threads : Int
  width : Int
  gridDimXY : Int
  blocks : Int
  deriving DecidableEq, Repr

/-- Lines 186-199 of `assemblySgemm`.  `strcmp(kernel, "sgemm_kernel_64") == 0`
is string equality; `/` and `%` on `int` truncate toward zero, and the sum
`N / width + (N % width != 0)` stays within `int` for every `int` `N`. -/
def launchGeometry (kernel : String) (N : Int) : LaunchGeometry :=
  let threads : Int := if kernel = "sgemm_kernel_64" then 64 else 256
  let width : Int := if kernel = "sgemm_kernel_64" then 64 else 128
  let gridDimXY := Int.tdiv N width + (if Int.tmod N width ≠ 0 then 1 else 0)
  let blocks := wrap32 (gridDimXY * gridDimXY)
  { threads := threads, width := width, gridDimXY := gridDimXY, blocks := blocks }

/-! ## `assemblySgemm`: chunked launch loop (lines 240-256) -/

/-- The `for (int i = 0; i < r; i++) cuLaunchKernel(...)` loop: the number of
kernel launches it issues. -/
def issueLaunches (r : Int) : Nat :=
  (List.range r.toNat).foldl (fun launches _ => launches + 1) 0

/-- One timing window of the launch loop: the kernel launches issued between
the two event records, and the value of `repeat` after `repeat -= r`. -/
structure Chunk where
  launches : Nat
  remaining : Int
  deriving DecidableEq, Repr

/-- The `while (repeat > 0)` loop of `assemblySgemm`.  The state is the
remaining count `rep` and the timing windows run so far; the value is the
state when the loop is left. -/
def launchLoop (rep : Int) (chunks : List Chunk) : Int × List Chunk :=
  if 0 < rep then
    let r : Int := if rep > 2 then 2 else rep
    launchLoop (rep - r) (chunks ++ [{ launches := issueLaunches r, remaining := rep - r }])
  else (rep, chunks)
termination_by rep.toNat
decreasing_by all_goals (simp only [gt_iff_lt] at *; split <;> omega)

/-! ## `assemblySgemm`: trace buffer and decoder (lines 202-214, 261-285) -/

/-- Lines 205-209: `sizeD`, in bytes (`sizeof(int)` is 4); 0 when `printVars`
is 0.  The product `blocks * threads * printVars * sizeof(int)` is formed in
`int` and `size_t` and stored in the `int` `sizeD`, so the stored value is the
mathematical product reduced to 32 bits. -/
def traceSizeD (blocks threads printVars : Int) : Int :=
  if printVars ≠ 0 then wrap32 (blocks * threads * printVars * 4) else 0

/-- One `printf` of the decoder: the three loop counters and the offsets (in
ints, from `D`) of the eight values `iD[0] .. iD[7]` it reads. -/
structure TraceRow where
  blockY : Nat
  blockX : Nat
  tid : Nat
  reads : List Int
  deriving DecidableEq, Repr

/-- Body of the innermost decoder loop: print `iD[0..7]`, then
`iD += printVars`.  The state is the offset of `iD` and the rows printed. -/
def traceStep (printVars : Int) (blockY blockX : Nat) (st : Int × List TraceRow) (tid : Nat) :
    Int × List TraceRow :=
  let iD := st.1
  (iD + printVars,
   st.2 ++ [{ blockY := blockY, blockX := blockX, tid := tid,
              reads := [iD + 0, iD + 1, iD + 2, iD + 3, iD + 4, iD + 5, iD + 6, iD + 7] }])

/-- Lines 269-283: the three nested `for` loops over `by`, `bx`, `tid`. -/
def traceDecoder (gridDimXY threads printVars : Int) : List TraceRow :=
  ((List.range gridDimXY.toNat).foldl (fun st blockY =>
    (List.range gridDimXY.toNat).foldl (fun st blockX =>
      (List.range threads.toNat).foldl (traceStep printVars blockY blockX) st) st)
    ((0 : Int), ([] : List TraceRow))).2

/-- What a run of `assemblySgemm` does with its integer arguments. -/
structure SgemmRun where
  geometry : LaunchGeometry
  sizeD : Int
  chunks : List Chunk
  remaining : Int
  trace : List TraceRow
  deriving DecidableEq, Repr

/-- Function `assemblySgemm` (lines 178-288), on its integer arguments. -/
def assemblySgemm (kernel : String) (N rep printVars : Int) : SgemmRun :=
  let g := launchGeometry kernel N
  let sizeD := traceSizeD g.blocks g.threads printVars
  let loop := launchLoop rep []
  let trace := if printVars ≠ 0 then traceDecoder g.gridDimXY g.threads printVars else []
  { geometry := g, sizeD := sizeD, chunks := loop.2, remaining := loop.1, trace := trace }

/-! ## `test`: the verifier (lines 297-342) -/

/-- Byte `i` of a buffer of 32 bit words (little endian). -/
def byteAt (buf : List Nat) (i : Nat) : Nat :=
  (buf.getD (i / 4) 0 / 256 ^ (i % 4)) % 256

/-- Bytes `i, i+1, ..., i+n-1` compared in order: 0 when all are equal,
otherwise the difference of the first pair that differs. -/
def memcmpFrom (C T : List Nat) : Nat → Nat → Int
  | 0, _ => 0
  | n + 1, i =>
    if byteAt C i ≠ byteAt T i then (byteAt C i : Int) - (byteAt T i : Int)
    else memcmpFrom C T n (i + 1)

/-- Library function `memcmp(C, T, size)`.  The C standard fixes only whether
the result is 0 and, when it is not, its sign (that of the difference of the
first differing bytes, as `unsigned char`).  This is one conforming
implementation, returning that difference; the properties below use only
whether the result is 0 and its sign. -/
def memcmp (C T : List Nat) (size : Nat) : Int := memcmpFrom C T size 0

/-- Whether a binary32 bit pattern is a NaN: exponent all ones, mantissa not 0. -/
def isNaN (w : Nat) : Bool := (w / 8388608) % 256 == 255 && w % 8388608 != 0

/-- Whether a binary32 bit pattern is +0.0 or -0.0. -/
def isZero (w : Nat) : Bool := w % 2147483648 == 0

/-- The C comparison `c != t` on two `float` values given by their bit
patterns: a NaN differs from everything, +0.0 equals -0.0, and otherwise two
floats are equal exactly when their bits are. -/
def fne (c t : Nat) : Bool :=
  isNaN c || isNaN t || (c % 4294967296 != t % 4294967296 && !(isZero c && isZero t))

/-- What is written to `data.txt`: `cell c true` is `fprintf(file, "%.0f!", c)`,
`cell c false` is `fprintf(file, "%.0f=", c)`, `newline` is
`fprintf(file, "\n")`. -/
inductive Tok where
  | cell (c : Nat) (differs : Bool)
  | newline
  deriving DecidableEq, Repr

/-- A line printed on the console by `test`. -/
inductive Msg where
  | errors (n : Int)
  | cannotOpen
  deriving DecidableEq, Repr

/-- What `test` does: the console lines, whether `fopen_s` was called on
`data.txt`, and what was written to the file (`none`: no file was written). -/
structure TestResult where
  console : List Msg
  fopenCalled : Bool
  file : Option (List Tok)
  deriving DecidableEq, Repr

/-- Body of the inner loop (lines 313-327) for column index `x` in line `y`. -/
def testCell (C T : List Nat) (N : Int) (y : Nat) (st : Int × List Tok) (x : Nat) :
    Int × List Tok :=
  let c := C.getD (x * N + y).toNat 0
  let t := T.getD (x * N + y).toNat 0
  if fne c t then (st.1 + 1, st.2 ++ [Tok.cell c true])
  else (st.1, st.2 ++ [Tok.cell c false])

/-- Body of the outer loop (lines 311-329): the inner loop over `x`, then the
newline. -/
def testLine (C T : List Nat) (N : Int) (st : Int × List Tok) (y : Nat) : Int × List Tok :=
  let st1 := (List.range N.toNat).foldl (testCell C T N y) st
  (st1.1, st1.2 ++ [Tok.newline])

/-- Lines 309-330: the loop over `y`, from `errors = 0` and an empty file. -/
def testLoops (C T : List Nat) (N : Int) : Int × List Tok :=
  (List.range N.toNat).foldl (testLine C T N) (0, [])

/-- Function `test(C, T, N, size)`; `canOpen` says whether
`fopen_s(&file, "data.txt", "w")` succeeds. -/
def test (C T : List Nat) (N : Int) (size : Nat) (canOpen : Bool) : TestResult :=
  let errors := memcmp C T size
  if errors ≠ 0 then
    if N ≤ 768 then
      if canOpen then
        let st := testLoops C T N
        { console := [Msg.errors st.1], fopenCalled := true, file := some st.2 }
      else
        { console := [Msg.cannotOpen], fopenCalled := true, file := none }
    else
      { console := [Msg.errors errors], fopenCalled := false, file := none }
  else
    { console := [Msg.errors errors], fopenCalled := false, file := none }

/-! ## Definitions used to state the properties -/

/-- Total number of kernel launches over a list of timing windows. -/
def totalLaunches (chunks : List Chunk) : Nat := (chunks.map Chunk.launches).sum

/-- Whether the candidate and the reference differ, as floats, at position
`(x, y)`, that is at element index `x * N + y`. -/
def differsAt (C T : List Nat) (N : Int) (y x : Nat) : Bool :=
  fne (C.getD (x * N + y).toNat 0) (T.getD (x * N + y).toNat 0)

/-- The cell for position `(x, y)`: the candidate value at element index
`x * N + y` with its mark. -/
def cellAt (C T : List Nat) (N : Int) (y x : Nat) : Tok :=
  Tok.cell (C.getD (x * N + y).toNat 0) (differsAt C T N y x)

/-- A cell marked `!`. -/
def isBang : Tok → Bool
  | Tok.cell _ true => true
  | _ => false

/-- A cell marked `=`. -/
def isEq : Tok → Bool
  | Tok.cell _ false => true
  | _ => false

/-- The lines of a file: the tokens before each newline (and an unfinished
last line, if any).  `cur` is the line being read. -/
def splitLines : List Tok → List Tok → List (List Tok)
  | [], cur => if cur = [] then [] else [cur]
  | Tok.newline :: rest, cur => cur :: splitLines rest []
  | Tok.cell c d :: rest, cur => splitLines rest (cur ++ [Tok.cell c d])

/-- The lines of a file. -/
def fileLines (file : List Tok) : List (List Tok) := splitLines file []

/-- The tokens of line `y`: its `N` cells, then the newline. -/
def lineToks (C T : List Nat) (N : Int) (y : Nat) : List Tok :=
  (List.range N.toNat).map (cellAt C T N y) ++ [Tok.newline]

/-- Number of positions of line `y` where the buffers differ. -/
def lineErrors (C T : List Nat) (N : Int) (y : Nat) : Nat :=
  (List.range N.toNat).countP (differsAt C T N y)

/-- The positions `(x, y)` with `0 ≤ x, y < N` at which the candidate element
`C[x*N + y]` differs from the reference element `T[x*N + y]`. -/
def mismatchPositions (C T : List Nat) (N : Int) : Finset (Nat × Nat) :=
  (Finset.range N.toNat ×ˢ Finset.range N.toNat).filter
    (fun p => differsAt C T N p.2 p.1 = true)

/-- The number of elements, among the first `n`, at which the candidate and
the reference differ (C comparison `!=` on floats). -/
def mismatchCount (C T : List Nat) (n : Nat) : Nat :=
  (List.range n).countP (fun i => fne (C.getD i 0) (T.getD i 0))

/-- A token that is a cell (not a newline). -/
def isCell : Tok → Bool
  | Tok.cell _ _ => true
  | Tok.newline => false

/-- The cells of a file, in the order in which they were written. -/
def emittedCells (file : List Tok) : List Tok := file.filter isCell

/-- The cells of the first `n` elements in storage order: the cell of element
index `i` is the `i`-th one. -/
def storageOrderCells (C T : List Nat) (n : Nat) : List Tok :=
  (List.range n).map (fun i => Tok.cell (C.getD i 0) (fne (C.getD i 0) (T.getD i 0)))

/-- The row printed for `(by, bx, tid)` when `iD` is at offset `iD`. -/
def rowFrom (iD : Int) (blockY blockX tid : Nat) : TraceRow :=
  { blockY := blockY, blockX := blockX, tid := tid,
    reads := [iD + 0, iD + 1, iD + 2, iD + 3, iD + 4, iD + 5, iD + 6, iD + 7] }

/-- Index of the record of `(by, bx, tid)` in a grid of `G x G` blocks of
`Tn` threads. -/
def recordIndex (G Tn blockY blockX tid : Nat) : Nat := (blockY * G + blockX) * Tn + tid

/-! ## Auxiliary lemmas -/

theorem wrap32_eq_self_iff (z : Int) :
    wrap32 z = z ↔ -2147483648 ≤ z ∧ z < 2147483648 := by
  unfold wrap32
  omega

theorem range_foldl_succ {σ : Type} (step : σ → Nat → σ) (s : σ) (n : Nat) :
    (List.range (n + 1)).foldl step s = step ((List.range n).foldl step s) n := by
  rw [List.range_succ, List.foldl_append]
  rfl

theorem issueLaunches_eq (r : Int) : issueLaunches r = r.toNat := by
  unfold issueLaunches
  generalize r.toNat = k
  induction k with
  | zero => rfl
  | succ k ih => rw [range_foldl_succ, ih]

theorem deviceLoop_le (majors : List Int) (ordinal : Nat) :
    ordinal ≤ deviceLoop majors ordinal ∧ deviceLoop majors ordinal ≤ ordinal + majors.length := by
  induction majors generalizing ordinal with
  | nil => simp [deviceLoop]
  | cons m rest ih =>
    simp only [deviceLoop, List.length_cons]
    split
    · omega
    · have := ih (ordinal + 1)
      omega

/-- The loop stops at the first device, counted from `ordinal`, whose major
version is at least 5, or at `count` when there is none. -/
theorem deviceLoop_spec (majors : List Int) (ordinal : Nat) :
    (deviceLoop majors ordinal = ordinal + majors.length ↔ ∀ m ∈ majors, m < 5) ∧
    ∀ i, i < majors.length →
      (deviceLoop majors ordinal = ordinal + i ↔
        (5 ≤ majors.getD i 0 ∧ ∀ j, j < i → majors.getD j 0 < 5)) := by
  induction majors generalizing ordinal with
  | nil => simp [deviceLoop]
  | cons m rest ih =>
    have hle := deviceLoop_le rest (ordinal + 1)
    obtain ⟨ih1, ih2⟩ := ih (ordinal + 1)
    by_cases hm : m ≥ 5
    · simp only [deviceLoop, hm, if_true, List.length_cons]
      refine ⟨?_, ?_⟩
      · constructor
        · intro h; omega
        · intro h
          have := h m (List.mem_cons_self _ _)
          omega
      · intro i hi
        cases i with
        | zero => simp; omega
        | succ i =>
          constructor
          · intro h; omega
          · rintro ⟨-, h⟩
            have := h 0 (by omega)
            simp at this
            omega
    · simp only [deviceLoop, hm, if_false, List.length_cons]
      have hm5 : m < 5 := by omega
      refine ⟨?_, ?_⟩
      · rw [show ordinal + (rest.length + 1) = ordinal + 1 + rest.length by omega, ih1]
        simp [hm5]
      · intro i hi
        cases i with
        | zero =>
          simp only [List.getD_cons_zero]
          constructor
          · intro h; omega
          · rintro ⟨h, -⟩; omega
        | succ i =>
          rw [show ordinal + (i + 1) = ordinal + 1 + i by omega, ih2 i (by simpa using hi)]
          simp only [List.getD_cons_succ]
          constructor
          · rintro ⟨h1, h2⟩
            refine ⟨h1, ?_⟩
            intro j hj
            cases j with
            | zero => simpa using hm5
            | succ j => simpa using h2 j (by omega)
          · rintro ⟨h1, h2⟩
            refine ⟨h1, ?_⟩
            intro j hj
            simpa using h2 (j + 1) (by omega)

/-! ## Device selection -/

/-- C8: for every list of devices, `main` exits with the non-zero status
`EXIT_FAILURE` exactly when no device has a major version of at least 5 (the
empty list included), and it keeps device `i` exactly when `i` is the lowest
ordinal whose major version is at least 5. -/
theorem selectDevice_first_capable (majors : List Int) :
    EXIT_FAILURE ≠ 0 ∧
    ((∃ status, selectDevice majors = Startup.exit status) ↔ ∀ m ∈ majors, m < 5) ∧
    (selectDevice majors = Startup.exit EXIT_FAILURE ↔ ∀ m ∈ majors, m < 5) ∧
    ∀ i, selectDevice majors = Startup.device i ↔
      (i < majors.length ∧ 5 ≤ majors.getD i 0 ∧ ∀ j, j < i → majors.getD j 0 < 5) := by
  obtain ⟨h1, h2⟩ := deviceLoop_spec majors 0
  have hle := deviceLoop_le majors 0
  simp only [Nat.zero_add] at h1 h2 hle
  have hexit : selectDevice majors = Startup.exit EXIT_FAILURE ↔ ∀ m ∈ majors, m < 5 := by
    rw [← h1]
    unfold selectDevice
    simp only []
    split <;> simp_all
  refine ⟨by decide, ?_, hexit, ?_⟩
  · rw [← hexit]
    unfold selectDevice
    simp only []
    split <;> simp
  · intro i
    unfold selectDevice
    simp only []
    split
    · rename_i heq
      simp only [false_iff, reduceCtorEq]
      rintro ⟨hi, h⟩
      have := (h2 i hi).2 h
      omega
    · rename_i hne
      simp only [Startup.device.injEq]
      constructor
      · intro h
        have hi : i < majors.length := by omega
        exact ⟨hi, (h2 i hi).1 h⟩
      · rintro ⟨hi, h⟩
        exact (h2 i hi).2 h

/-! ## Argument validation -/

/-- C7: for every list of supplied argument values (absent arguments being
the missing tail of the list), `thread64` is the first value when it lies in
[1,80] and 80 otherwise, the repeat count is the second value when it lies in
[1,1000] and 1 otherwise, the field count is the third value when it lies in
[1,100] and 0 otherwise, and `N = thread64 * 64` is a multiple of 64 with
`64 ≤ N ≤ 5120`. -/
theorem mainArgs_validated (args : List Int) :
    (mainArgs args).thread64 =
      (match args[0]? with
       | some v => if 1 ≤ v ∧ v ≤ 80 then v else 80
       | none => 80) ∧
    (mainArgs args).rep =
      (match args[1]? with
       | some v => if 1 ≤ v ∧ v ≤ 1000 then v else 1
       | none => 1) ∧
    (mainArgs args).printVars =
      (match args[2]? with
       | some v => if 1 ≤ v ∧ v ≤ 100 then v else 0
       | none => 0) ∧
    (mainArgs args).N = (mainArgs args).thread64 * 64 ∧
    (64 : Int) ∣ (mainArgs args).N ∧ 64 ≤ (mainArgs args).N ∧ (mainArgs args).N ≤ 5120 := by
  have hN : (mainArgs args).N = (mainArgs args).thread64 * 64 := rfl
  have ht : 1 ≤ (mainArgs args).thread64 ∧ (mainArgs args).thread64 ≤ 80 := by
    simp only [mainArgs]
    split_ifs <;> omega
  refine ⟨?_, ?_, ?_, hN, ⟨(mainArgs args).thread64, by rw [hN]; ring⟩, by omega, by omega⟩
  · rcases args with _ | ⟨a, rest⟩
    · simp [mainArgs]
    · simp only [mainArgs, List.length_cons, List.getD_cons_zero, List.getElem?_cons_zero]
      split_ifs <;> first | rfl | omega
  · rcases args with _ | ⟨a, _ | ⟨b, rest⟩⟩
    · simp [mainArgs]
    · simp [mainArgs]
    · simp only [mainArgs, List.length_cons, List.getD_cons_succ, List.getD_cons_zero,
        List.getElem?_cons_succ, List.getElem?_cons_zero]
      split_ifs <;> first | rfl | omega
  · rcases args with _ | ⟨a, _ | ⟨b, _ | ⟨c, rest⟩⟩⟩
    · simp [mainArgs]
    · simp [mainArgs]
    · simp [mainArgs]
    · simp only [mainArgs, List.length_cons, List.getD_cons_succ, List.getD_cons_zero,
        List.getElem?_cons_succ, List.getElem?_cons_zero]
      split_ifs <;> first | rfl | omega

/-! ## Launch geometry -/

theorem launchGeometry_variant (kernel : String) (N : Int) :
    ((launchGeometry kernel N).width = 64 ∧ (launchGeometry kernel N).threads = 64 ∧
        kernel = "sgemm_kernel_64") ∨
    ((launchGeometry kernel N).width = 128 ∧ (launchGeometry kernel N).threads = 256 ∧
        kernel ≠ "sgemm_kernel_64") := by
  by_cases hk : kernel = "sgemm_kernel_64"
  · left; simp [launchGeometry, hk]
  · right; simp [launchGeometry, hk]

theorem launchGeometry_grid_bounds (kernel : String) (N : Int) (hpos : 0 < N) :
    ((launchGeometry kernel N).gridDimXY - 1) * (launchGeometry kernel N).width < N ∧
    N ≤ (launchGeometry kernel N).gridDimXY * (launchGeometry kernel N).width := by
  by_cases hk : kernel = "sgemm_kernel_64"
  · simp only [launchGeometry, hk, if_true]
    rw [Int.tdiv_eq_ediv (by omega) (by omega), Int.tmod_eq_emod (by omega) (by omega)]
    split_ifs <;> omega
  · simp only [launchGeometry, hk, if_false]
    rw [Int.tdiv_eq_ediv (by omega) (by omega), Int.tmod_eq_emod (by omega) (by omega)]
    split_ifs <;> omega

/-- C1, as the code has it: for each kernel variant (width 64 with 64 threads
for "sgemm_kernel_64", width 128 with 256 threads otherwise) and every
positive `N`, `gridDimXY` equals `ceil(N / width)`, and the `int` block count
equals `gridDimXY * gridDimXY` exactly when `gridDimXY ≤ 46340`, that is when
the square fits a 32 bit `int`. -/
theorem launchGeometry_ceil (kernel : String) (N : Int) (hpos : 0 < N) :
    ((kernel = "sgemm_kernel_64" ∧ (launchGeometry kernel N).width = 64 ∧
        (launchGeometry kernel N).threads = 64) ∨
     (kernel ≠ "sgemm_kernel_64" ∧ (launchGeometry kernel N).width = 128 ∧
        (launchGeometry kernel N).threads = 256)) ∧
    (launchGeometry kernel N).gridDimXY = ⌈(N : ℚ) / ((launchGeometry kernel N).width : ℚ)⌉ ∧
    1 ≤ (launchGeometry kernel N).gridDimXY ∧
    ((launchGeometry kernel N).blocks =
        (launchGeometry kernel N).gridDimXY * (launchGeometry kernel N).gridDimXY ↔
      (launchGeometry kernel N).gridDimXY ≤ 46340) := by
  obtain ⟨hlo, hhi⟩ := launchGeometry_grid_bounds kernel N hpos
  have hv := launchGeometry_variant kernel N
  have hw : 0 < (launchGeometry kernel N).width := by
    rcases hv with ⟨h, -, -⟩ | ⟨h, -, -⟩ <;> omega
  have hg : 1 ≤ (launchGeometry kernel N).gridDimXY := by
    by_contra hcon
    have h0 : (launchGeometry kernel N).gridDimXY ≤ 0 := by omega
    have := mul_nonpos_of_nonpos_of_nonneg h0 hw.le
    omega
  refine ⟨?_, ?_, hg, ?_⟩
  · rcases hv with ⟨h1, h2, h3⟩ | ⟨h1, h2, h3⟩
    · exact Or.inl ⟨h3, h1, h2⟩
    · exact Or.inr ⟨h3, h1, h2⟩
  · symm
    rw [Int.ceil_eq_iff]
    have hwq : (0 : ℚ) < ((launchGeometry kernel N).width : ℚ) := by exact_mod_cast hw
    constructor
    · rw [lt_div_iff₀ hwq]
      exact_mod_cast hlo
    · rw [div_le_iff₀ hwq]
      exact_mod_cast hhi
  · have hb : (launchGeometry kernel N).blocks =
        wrap32 ((launchGeometry kernel N).gridDimXY * (launchGeometry kernel N).gridDimXY) := rfl
    rw [hb, wrap32_eq_self_iff]
    generalize (launchGeometry kernel N).gridDimXY = g at hg ⊢
    constructor
    · rintro ⟨-, h⟩
      by_contra hcon
      have : 46341 * 46341 ≤ g * g := by nlinarith
      omega
    · intro h
      constructor
      · nlinarith
      · nlinarith

/-- C1, witness: `N = 130` with the 128-wide kernel gives grid 2 and 4 blocks. -/
theorem launchGeometry_ceil_witness :
    (0 : Int) < 130 ∧ (launchGeometry "sgemm_kernel_128" 130).gridDimXY = 2 ∧
    (launchGeometry "sgemm_kernel_128" 130).blocks = 4 ∧
    (launchGeometry "sgemm_kernel_128" 130).gridDimXY =
      ⌈((130 : Int) : ℚ) / ((launchGeometry "sgemm_kernel_128" 130).width : ℚ)⌉ :=
  ⟨by decide, by decide, by decide,
   (launchGeometry_ceil "sgemm_kernel_128" 130 (by decide)).2.1⟩

/-- C1, as stated, fails: for `N = 5931648` with the 128-wide kernel,
`gridDimXY` is 46341 and the `int` block count is not its square. -/
theorem launchGeometry_blocks_overflow :
    (0 : Int) < 5931648 ∧
    (launchGeometry "sgemm_kernel_128" 5931648).gridDimXY = 46341 ∧
    (launchGeometry "sgemm_kernel_128" 5931648).blocks = -2147479015 ∧
    (launchGeometry "sgemm_kernel_128" 5931648).blocks ≠
      (launchGeometry "sgemm_kernel_128" 5931648).gridDimXY *
        (launchGeometry "sgemm_kernel_128" 5931648).gridDimXY := by
  decide

/-- The two sizes named in the specification: `N = 128` gives grid 1 and one
block, `N = 130` gives grid 2 and four blocks (128-wide kernel). -/
theorem launchGeometry_examples :
    (launchGeometry "sgemm_kernel_128" 128).gridDimXY = 1 ∧
    (launchGeometry "sgemm_kernel_128" 128).blocks = 1 ∧
    (launchGeometry "sgemm_kernel_128" 130).gridDimXY = 2 ∧
    (launchGeometry "sgemm_kernel_128" 130).blocks = 4 := by
  decide

/-- Every size `main` can pass (`0 < N ≤ 5120`) has a block count equal to
the square of the grid dimension. -/
theorem launchGeometry_blocks_main (kernel : String) (N : Int) (hpos : 0 < N)
    (hN : N ≤ 5120) :
    (launchGeometry kernel N).blocks =
      (launchGeometry kernel N).gridDimXY * (launchGeometry kernel N).gridDimXY ∧
    (launchGeometry kernel N).gridDimXY ≤ 80 := by
  obtain ⟨hlo, hhi⟩ := launchGeometry_grid_bounds kernel N hpos
  have hle : (launchGeometry kernel N).gridDimXY ≤ 80 := by
    rcases launchGeometry_variant kernel N with ⟨h, -, -⟩ | ⟨h, -, -⟩ <;> rw [h] at hlo <;> omega
  have hb : (launchGeometry kernel N).blocks =
      wrap32 ((launchGeometry kernel N).gridDimXY * (launchGeometry kernel N).gridDimXY) := rfl
  refine ⟨?_, hle⟩
  rw [hb, wrap32_eq_self_iff]
  constructor <;> nlinarith

/-! ## Chunked launch loop -/

theorem totalLaunches_append (a b : List Chunk) :
    totalLaunches (a ++ b) = totalLaunches a + totalLaunches b := by
  simp [totalLaunches]

theorem launchLoop_spec_aux (n : Nat) : ∀ (rep : Int) (chunks : List Chunk),
    rep.toNat ≤ n → 0 ≤ rep →
    (launchLoop rep chunks).1 = 0 ∧
    ∃ added : List Chunk, (launchLoop rep chunks).2 = chunks ++ added ∧
      (∀ c ∈ added, 1 ≤ c.launches ∧ c.launches ≤ 2 ∧ 0 ≤ c.remaining) ∧
      (totalLaunches added : Int) = rep := by
  induction n with
  | zero =>
    intro rep chunks hn hrep
    have h0 : rep = 0 := by omega
    subst h0
    rw [launchLoop, if_neg (by decide)]
    exact ⟨rfl, [], by simp, by simp, by simp [totalLaunches]⟩
  | succ n ih =>
    intro rep chunks hn hrep
    by_cases hpos : 0 < rep
    · obtain ⟨r, hrdef⟩ : ∃ r : Int, r = if rep > 2 then 2 else rep := ⟨_, rfl⟩
      have hr : 1 ≤ r ∧ r ≤ 2 ∧ r ≤ rep := by
        rw [hrdef]
        split <;> omega
      have hunfold : launchLoop rep chunks =
          launchLoop (rep - r)
            (chunks ++ [{ launches := issueLaunches r, remaining := rep - r }]) := by
        rw [launchLoop, if_pos hpos, hrdef]
      obtain ⟨ih1, added, ih2, ih3, ih4⟩ :=
        ih (rep - r) (chunks ++ [{ launches := issueLaunches r, remaining := rep - r }])
          (by omega) (by omega)
      rw [hunfold]
      refine ⟨ih1, { launches := issueLaunches r, remaining := rep - r } :: added, ?_, ?_, ?_⟩
      · rw [ih2]; simp
      · intro c hc
        rcases List.mem_cons.1 hc with rfl | hc
        · simp only [issueLaunches_eq]
          omega
        · exact ih3 c hc
      · have hcons : totalLaunches ({ launches := issueLaunches r, remaining := rep - r } :: added)
            = r.toNat + totalLaunches added := by
          simp [totalLaunches, issueLaunches_eq]
        rw [hcons]
        push_cast
        omega
    · have h0 : rep = 0 := by omega
      subst h0
      rw [launchLoop, if_neg (by decide)]
      exact ⟨rfl, [], by simp, by simp, by simp [totalLaunches]⟩

/-- From a non-negative count the loop runs to `repeat = 0`, and the windows
it adds each issue one or two launches, leave a non-negative count, and
together issue the initial count. -/
theorem launchLoop_spec (rep : Int) (chunks : List Chunk) (hrep : 0 ≤ rep) :
    (launchLoop rep chunks).1 = 0 ∧
    ∃ added : List Chunk, (launchLoop rep chunks).2 = chunks ++ added ∧
      (∀ c ∈ added, 1 ≤ c.launches ∧ c.launches ≤ 2 ∧ 0 ≤ c.remaining) ∧
      (totalLaunches added : Int) = rep :=
  launchLoop_spec_aux rep.toNat rep chunks (le_refl _) hrep

/-- C2: for every repeat count `R ≥ 1` the launch loop of `assemblySgemm`
ends with a remaining count of exactly 0, every timing window issues at least
1 and at most 2 launches and leaves a non-negative remaining count, and the
launches of all windows add up to exactly `R`. -/
theorem assemblySgemm_launches (kernel : String) (N R printVars : Int) (hR : 1 ≤ R) :
    (assemblySgemm kernel N R printVars).remaining = 0 ∧
    (∀ c ∈ (assemblySgemm kernel N R printVars).chunks,
      1 ≤ c.launches ∧ c.launches ≤ 2 ∧ 0 ≤ c.remaining) ∧
    (totalLaunches (assemblySgemm kernel N R printVars).chunks : Int) = R := by
  obtain ⟨h1, added, h2, h3, h4⟩ := launchLoop_spec R [] (by omega)
  simp only [List.nil_append] at h2
  refine ⟨h1, ?_, ?_⟩
  · show ∀ c ∈ (launchLoop R []).2, _
    rw [h2]
    exact h3
  · show (totalLaunches (launchLoop R []).2 : Int) = R
    rw [h2]
    exact h4

/-- C2, witness: five repeats are issued as windows of 2, 2 and 1 launches. -/
theorem assemblySgemm_launches_witness :
    (1 : Int) ≤ 5 ∧
    (assemblySgemm "sgemm_kernel_128" 5120 5 0).remaining = 0 ∧
    (∀ c ∈ (assemblySgemm "sgemm_kernel_128" 5120 5 0).chunks,
      1 ≤ c.launches ∧ c.launches ≤ 2 ∧ 0 ≤ c.remaining) ∧
    (totalLaunches (assemblySgemm "sgemm_kernel_128" 5120 5 0).chunks : Int) = 5 :=
  ⟨by decide, assemblySgemm_launches "sgemm_kernel_128" 5120 5 0 (by decide)⟩

/-! ## The verifier: byte comparison -/

theorem memcmpFrom_eq_zero_iff (C T : List Nat) (n i : Nat) :
    memcmpFrom C T n i = 0 ↔ ∀ j, j < n → byteAt C (i + j) = byteAt T (i + j) := by
  induction n generalizing i with
  | zero => simp [memcmpFrom]
  | succ n ih =>
    rw [memcmpFrom]
    by_cases hb : byteAt C i = byteAt T i
    · rw [if_neg (by simpa using hb), ih]
      constructor
      · intro h j hj
        cases j with
        | zero => simpa using hb
        | succ j =>
          have := h j (by omega)
          rwa [show i + 1 + j = i + (j + 1) by omega] at this
      · intro h j hj
        have := h (j + 1) (by omega)
        rwa [show i + (j + 1) = i + 1 + j by omega] at this
    · rw [if_pos hb]
      constructor
      · intro h
        exfalso
        apply hb
        omega
      · intro h
        exact absurd (by simpa using h 0 (by omega)) hb

/-- The byte comparison returns 0 exactly when the first `size` bytes of the
two buffers are the same. -/
theorem memcmp_eq_zero_iff (C T : List Nat) (size : Nat) :
    memcmp C T size = 0 ↔ ∀ i, i < size → byteAt C i = byteAt T i := by
  unfold memcmp
  rw [memcmpFrom_eq_zero_iff]
  simp

/-! ## The verifier: the two loops -/

theorem testCell_eq (C T : List Nat) (N : Int) (y : Nat) (st : Int × List Tok) (x : Nat) :
    testCell C T N y st x =
      (st.1 + (if differsAt C T N y x then 1 else 0), st.2 ++ [cellAt C T N y x]) := by
  unfold testCell differsAt cellAt
  simp only []
  split_ifs with h
  · rw [show differsAt C T N y x = true from h]
  · rw [Bool.not_eq_true] at h
    rw [show differsAt C T N y x = false from h, add_zero]

theorem testCell_foldl (C T : List Nat) (N : Int) (y : Nat) (st : Int × List Tok) (m : Nat) :
    (List.range m).foldl (testCell C T N y) st =
      (st.1 + (((List.range m).countP (differsAt C T N y) : Nat) : Int),
       st.2 ++ (List.range m).map (cellAt C T N y)) := by
  induction m with
  | zero => simp
  | succ m ih =>
    rw [range_foldl_succ, ih, testCell_eq, List.range_succ, List.countP_append, List.map_append]
    by_cases h : differsAt C T N y m = true
    · simp [h, List.countP_cons, add_assoc]
    · simp [h, List.countP_cons]

theorem testLine_eq (C T : List Nat) (N : Int) (st : Int × List Tok) (y : Nat) :
    testLine C T N st y = (st.1 + (lineErrors C T N y : Int), st.2 ++ lineToks C T N y) := by
  unfold testLine lineErrors lineToks
  rw [testCell_foldl]
  simp

theorem testLine_foldl (C T : List Nat) (N : Int) (st : Int × List Tok) (m : Nat) :
    (List.range m).foldl (testLine C T N) st =
      (st.1 + ((((List.range m).map (lineErrors C T N)).sum : Nat) : Int),
       st.2 ++ ((List.range m).map (lineToks C T N)).flatten) := by
  induction m with
  | zero => simp
  | succ m ih =>
    rw [range_foldl_succ, ih, testLine_eq, List.range_succ]
    simp [add_assoc]

theorem testLoops_eq (C T : List Nat) (N : Int) :
    testLoops C T N =
      (((((List.range N.toNat).map (lineErrors C T N)).sum : Nat) : Int),
       ((List.range N.toNat).map (lineToks C T N)).flatten) := by
  unfold testLoops
  rw [testLine_foldl]
  simp

/-! ## The verifier: counting cells and positions -/

theorem list_sum_range (f : Nat → Nat) (m : Nat) :
    ((List.range m).map f).sum = ∑ i in Finset.range m, f i := by
  induction m with
  | zero => simp
  | succ m ih => simp [List.range_succ, Finset.sum_range_succ, ih]

theorem countP_range (p : Nat → Bool) (m : Nat) :
    (List.range m).countP p = ∑ i in Finset.range m, if p i = true then 1 else 0 := by
  induction m with
  | zero => simp
  | succ m ih =>
    rw [List.range_succ, List.countP_append, ih, Finset.sum_range_succ]
    by_cases h : p m = true <;> simp [h]

theorem sum_lineErrors (C T : List Nat) (N : Int) :
    ((List.range N.toNat).map (lineErrors C T N)).sum = (mismatchPositions C T N).card := by
  rw [list_sum_range, mismatchPositions, Finset.card_filter, Finset.sum_product,
    Finset.sum_comm]
  apply Finset.sum_congr rfl
  intro y _
  rw [lineErrors, countP_range]

theorem countP_isBang_cells (C T : List Nat) (N : Int) (y : Nat) (l : List Nat) :
    (l.map (cellAt C T N y)).countP isBang = l.countP (differsAt C T N y) := by
  induction l with
  | nil => rfl
  | cons x l ih =>
    rw [List.map_cons, List.countP_cons, List.countP_cons, ih]
    by_cases h : differsAt C T N y x = true
    · simp [cellAt, isBang, h]
    · rw [Bool.not_eq_true] at h
      simp [cellAt, isBang, h]

theorem countP_isEq_cells (C T : List Nat) (N : Int) (y : Nat) (l : List Nat) :
    (l.map (cellAt C T N y)).countP isEq + l.countP (differsAt C T N y) = l.length := by
  induction l with
  | nil => rfl
  | cons x l ih =>
    rw [List.map_cons, List.countP_cons, List.countP_cons, List.length_cons]
    by_cases h : differsAt C T N y x = true
    · simp only [cellAt, isEq, h]
      simp only [Bool.false_eq_true, if_false, if_true]
      omega
    · rw [Bool.not_eq_true] at h
      simp only [cellAt, isEq, h]
      simp only [Bool.false_eq_true, if_false, if_true]
      omega

theorem countP_isBang_lineToks (C T : List Nat) (N : Int) (y : Nat) :
    (lineToks C T N y).countP isBang = lineErrors C T N y := by
  rw [lineToks, List.countP_append, countP_isBang_cells, lineErrors]
  simp [isBang]

theorem countP_isEq_lineToks (C T : List Nat) (N : Int) (y : Nat) :
    (lineToks C T N y).countP isEq + lineErrors C T N y = N.toNat := by
  have h := countP_isEq_cells C T N y (List.range N.toNat)
  rw [List.length_range] at h
  rw [lineToks, List.countP_append, lineErrors]
  simpa [isEq] using h

theorem countP_isBang_file (C T : List Nat) (N : Int) (l : List Nat) :
    ((l.map (lineToks C T N)).flatten).countP isBang = (l.map (lineErrors C T N)).sum := by
  induction l with
  | nil => rfl
  | cons y l ih =>
    rw [List.map_cons, List.flatten_cons, List.countP_append, ih, countP_isBang_lineToks]
    simp

theorem countP_isEq_file (C T : List Nat) (N : Int) (l : List Nat) :
    ((l.map (lineToks C T N)).flatten).countP isEq + (l.map (lineErrors C T N)).sum =
      l.length * N.toNat := by
  induction l with
  | nil => simp
  | cons y l ih =>
    have h := countP_isEq_lineToks C T N y
    rw [List.map_cons, List.flatten_cons, List.countP_append, List.map_cons, List.sum_cons,
      List.length_cons, Nat.succ_mul]
    omega

/-! ## The verifier: the lines of the file -/

theorem splitLines_cells (C T : List Nat) (N : Int) (y : Nat) (l : List Nat)
    (rest cur : List Tok) :
    splitLines (l.map (cellAt C T N y) ++ rest) cur =
      splitLines rest (cur ++ l.map (cellAt C T N y)) := by
  induction l generalizing cur with
  | nil => simp
  | cons x l ih =>
    rw [List.map_cons, List.cons_append]
    unfold cellAt
    rw [splitLines]
    have := ih (cur ++ [cellAt C T N y x])
    unfold cellAt at this
    rw [this]
    simp

theorem splitLines_file (C T : List Nat) (N : Int) (l : List Nat) :
    splitLines ((l.map (lineToks C T N)).flatten) [] =
      l.map (fun y => (List.range N.toNat).map (cellAt C T N y)) := by
  induction l with
  | nil => simp [splitLines]
  | cons y l ih =>
    rw [List.map_cons, List.flatten_cons, lineToks, List.append_assoc, splitLines_cells,
      List.singleton_append, splitLines, ih]
    simp

/-! ## The verifier: the three paths of `test` -/

theorem test_of_memcmp_eq_zero (C T : List Nat) (N : Int) (size : Nat) (canOpen : Bool)
    (h : memcmp C T size = 0) :
    test C T N size canOpen =
      { console := [Msg.errors 0], fopenCalled := false, file := none } := by
  unfold test
  simp [h]

theorem test_small (C T : List Nat) (N : Int) (size : Nat) (hN : N ≤ 768)
    (hne : memcmp C T size ≠ 0) :
    test C T N size true =
      { console := [Msg.errors ((mismatchPositions C T N).card : Int)],
        fopenCalled := true,
        file := some (((List.range N.toNat).map (lineToks C T N)).flatten) } := by
  unfold test
  simp only [hne, hN, ne_eq, not_false_eq_true, if_true]
  rw [testLoops_eq, sum_lineErrors]

theorem test_large (C T : List Nat) (N : Int) (size : Nat) (canOpen : Bool) (hN : 768 < N)
    (hne : memcmp C T size ≠ 0) :
    test C T N size canOpen =
      { console := [Msg.errors (memcmp C T size)], fopenCalled := false, file := none } := by
  unfold test
  have hN2 : ¬ N ≤ 768 := by omega
  simp only [hne, hN2, ne_eq, not_false_eq_true, if_true, if_false]

/-- The element comparison is the float comparison, not a comparison of bits:
+0.0 against -0.0 is a byte mismatch with no differing element (0 errors, one
cell marked `=`), and a NaN differs from a NaN of the same bits. -/
theorem test_float_comparison_examples :
    test [0] [2147483648] 1 4 true =
      { console := [Msg.errors 0], fopenCalled := true,
        file := some [Tok.cell 0 false, Tok.newline] } ∧
    test [2143289344, 0, 0, 0] [2143289344, 0, 0, 1] 2 16 true =
      { console := [Msg.errors 2], fopenCalled := true,
        file := some [Tok.cell 2143289344 true, Tok.cell 0 false, Tok.newline,
                      Tok.cell 0 false, Tok.cell 0 true, Tok.newline] } := by
  decide

/-- C3: for every `N`, every `size` and every pair of buffers whose first
`size` bytes are the same, `test` prints exactly "0 errors" and neither opens
nor writes `data.txt`. -/
theorem test_identical (C T : List Nat) (N : Int) (size : Nat) (canOpen : Bool)
    (h : ∀ i, i < size → byteAt C i = byteAt T i) :
    test C T N size canOpen =
      { console := [Msg.errors 0], fopenCalled := false, file := none } :=
  test_of_memcmp_eq_zero C T N size canOpen ((memcmp_eq_zero_iff C T size).2 h)

/-- C3, witness: two equal 2 x 2 buffers (1.0, 2.0, 3.0, 4.0). -/
theorem test_identical_witness :
    (∀ i, i < 16 →
      byteAt [1065353216, 1073741824, 1077936128, 1082130432] i =
        byteAt [1065353216, 1073741824, 1077936128, 1082130432] i) ∧
    test [1065353216, 1073741824, 1077936128, 1082130432]
        [1065353216, 1073741824, 1077936128, 1082130432] 2 16 true =
      { console := [Msg.errors 0], fopenCalled := false, file := none } :=
  ⟨by decide,
   test_identical [1065353216, 1073741824, 1077936128, 1082130432]
     [1065353216, 1073741824, 1077936128, 1082130432] 2 16 true (by decide)⟩

/-- C4: for every `N ≤ 768` and every pair of buffers that `memcmp` finds
different over `size` bytes and whose elements `C[x*N+y]` and `T[x*N+y]`
differ (C comparison `!=` on floats) at exactly `k` positions `(x, y)`,
`test`, when `data.txt` can be opened, prints exactly "k errors" and writes a
file with exactly `k` cells marked `!`, the other `N*N - k` cells being
marked `=`. -/
theorem test_small_counts (C T : List Nat) (N : Int) (size k : Nat) (hN : N ≤ 768)
    (hne : memcmp C T size ≠ 0) (hk : (mismatchPositions C T N).card = k) :
    (test C T N size true).console = [Msg.errors (k : Int)] ∧
    (test C T N size true).fopenCalled = true ∧
    ∃ file, (test C T N size true).file = some file ∧
      file.countP isBang = k ∧
      file.countP isEq = N.toNat * N.toNat - k ∧
      file.countP isBang + file.countP isEq = N.toNat * N.toNat := by
  rw [test_small C T N size hN hne, hk]
  refine ⟨rfl, rfl, _, rfl, ?_⟩
  have h1 := countP_isBang_file C T N (List.range N.toNat)
  have h2 := countP_isEq_file C T N (List.range N.toNat)
  rw [sum_lineErrors, hk] at h1 h2
  rw [List.length_range] at h2
  omega

/-- C4, witness: 2 x 2 buffers (1.0, 2.0, 3.0, 4.0) and (1.0, 2.0, 3.0, 5.0)
differ at one position. -/
theorem test_small_counts_witness :
    (2 : Int) ≤ 768 ∧
    memcmp [1065353216, 1073741824, 1077936128, 1082130432]
      [1065353216, 1073741824, 1077936128, 1084227584] 16 ≠ 0 ∧
    (mismatchPositions [1065353216, 1073741824, 1077936128, 1082130432]
      [1065353216, 1073741824, 1077936128, 1084227584] 2).card = 1 ∧
    (test [1065353216, 1073741824, 1077936128, 1082130432]
      [1065353216, 1073741824, 1077936128, 1084227584] 2 16 true).console =
        [Msg.errors (1 : Nat)] :=
  ⟨by decide, by decide, by decide,
   (test_small_counts [1065353216, 1073741824, 1077936128, 1082130432]
     [1065353216, 1073741824, 1077936128, 1084227584] 2 16 1
     (by decide) (by decide) (by decide)).1⟩

/-- When the byte comparison is not 0, its sign is that of the difference of
the first pair of bytes that differ. -/
theorem memcmpFrom_sign (C T : List Nat) (n i : Nat) (h : memcmpFrom C T n i ≠ 0) :
    ∃ j, j < n ∧ (∀ l, l < j → byteAt C (i + l) = byteAt T (i + l)) ∧
      byteAt C (i + j) ≠ byteAt T (i + j) ∧
      (memcmpFrom C T n i < 0 ↔ byteAt C (i + j) < byteAt T (i + j)) := by
  induction n generalizing i with
  | zero => exact absurd rfl h
  | succ n ih =>
    rw [memcmpFrom] at h ⊢
    by_cases hb : byteAt C i = byteAt T i
    · rw [if_neg (by simpa using hb)] at h ⊢
      obtain ⟨j, hj, hpre, hne, hval⟩ := ih (i + 1) h
      refine ⟨j + 1, by omega, ?_, ?_, ?_⟩
      · intro l hl
        cases l with
        | zero => simpa using hb
        | succ l =>
          have := hpre l (by omega)
          rwa [show i + 1 + l = i + (l + 1) by omega] at this
      · rwa [show i + 1 + j = i + (j + 1) by omega] at hne
      · rwa [show i + 1 + j = i + (j + 1) by omega] at hval
    · rw [if_pos hb]
      refine ⟨0, by omega, by intro l hl; omega, by simpa using hb, ?_⟩
      simp only [Nat.add_zero]
      omega

theorem getD_replicate_zero (n i : Nat) : (List.replicate n 0).getD i 0 = 0 := by
  rw [List.getD_eq_getElem?_getD, List.getElem?_replicate]
  split <;> rfl

/-- Zeros against a reference that is zero except for its first element, whose
bits are 1: exactly one element differs. -/
theorem mismatchCount_first_only (n : Nat) :
    mismatchCount (List.replicate (n + 1) 0) (1 :: List.replicate n 0) (n + 1) = 1 := by
  unfold mismatchCount
  rw [List.range_succ_eq_map, List.countP_cons, List.countP_map]
  have h0 : (List.range n).countP
      ((fun i => fne ((List.replicate (n + 1) 0).getD i 0) ((1 :: List.replicate n 0).getD i 0)) ∘
        Nat.succ) = 0 := by
    rw [List.countP_eq_zero]
    intro i _
    simp only [Function.comp_apply, List.getD_cons_succ, getD_replicate_zero]
    decide
  rw [h0, getD_replicate_zero, List.getD_cons_zero]
  decide

/-- In a buffer of `N * N` floats every element index `x * N + y` with
`0 ≤ x, y < N` is inside the buffer. -/
theorem test_index_lt (N : Int) (x y : Nat) (hx : x < N.toNat) (hy : y < N.toNat) :
    ((x : Int) * N + (y : Int)).toNat < (N * N).toNat := by
  have hxN : (x : Int) + 1 ≤ N := by omega
  have hyN : (y : Int) < N := by omega
  have hN : 0 < N := by omega
  have h1 : ((x : Int) + 1) * N ≤ N * N := mul_le_mul_of_nonneg_right hxN hN.le
  have h2 : ((x : Int) + 1) * N = (x : Int) * N + N := by ring
  have h3 : 0 ≤ (x : Int) * N := mul_nonneg (by omega) hN.le
  omega

/-- C5, the code at a failing input: with `N = 832` (the size `main` passes
for `thread64 = 13`), a candidate of 832 x 832 zeros and a reference that
differs from it in its first element only (bits 1), exactly one element
mismatches, yet the number `test` prints in its "errors" line is the result
of `memcmp`, which is negative, and not the count 1; no file is opened or
written. -/
theorem test_large_not_a_count :
    (768 : Int) < 832 ∧
    (mainArgs [13]).N = 832 ∧
    mismatchCount (List.replicate 692224 0) (1 :: List.replicate 692223 0) 692224 = 1 ∧
    (∃ n : Int,
      (test (List.replicate 692224 0) (1 :: List.replicate 692223 0) 832 2768896 true).console =
        [Msg.errors n] ∧ n < 0) ∧
    (test (List.replicate 692224 0) (1 :: List.replicate 692223 0) 832 2768896 true).fopenCalled =
      false ∧
    (test (List.replicate 692224 0) (1 :: List.replicate 692223 0) 832 2768896 true).file =
      none ∧
    (test (List.replicate 692224 0) (1 :: List.replicate 692223 0) 832 2768896 true).console ≠
      [Msg.errors
        (mismatchCount (List.replicate 692224 0) (1 :: List.replicate 692223 0) 692224 : Nat)] := by
  have hne : memcmp (List.replicate 692224 0) (1 :: List.replicate 692223 0) 2768896 = -1 := by
    decide
  have hcount := mismatchCount_first_only 692223
  have ht := test_large (List.replicate 692224 0) (1 :: List.replicate 692223 0) 832 2768896
    true (by decide) (by rw [hne]; decide)
  rw [hne] at ht
  refine ⟨by decide, by decide, hcount, ⟨-1, by rw [ht], by decide⟩, by rw [ht], by rw [ht], ?_⟩
  rw [ht, hcount]
  decide

/-! ## The verifier: layout of the file -/

theorem filter_isCell_cells (C T : List Nat) (N : Int) (y : Nat) (l : List Nat) :
    (l.map (cellAt C T N y)).filter isCell = l.map (cellAt C T N y) := by
  rw [List.filter_eq_self]
  intro t ht
  obtain ⟨x, -, rfl⟩ := List.mem_map.1 ht
  rfl

theorem emittedCells_file (C T : List Nat) (N : Int) (l : List Nat) :
    emittedCells ((l.map (lineToks C T N)).flatten) =
      (l.map (fun y => (List.range N.toNat).map (cellAt C T N y))).flatten := by
  unfold emittedCells
  induction l with
  | nil => rfl
  | cons y l ih =>
    rw [List.map_cons, List.flatten_cons, List.filter_append, ih, lineToks, List.filter_append,
      filter_isCell_cells]
    simp [isCell]

theorem flatten_getD_uniform {α : Type} (L : List (List α)) (n : Nat)
    (h : ∀ l ∈ L, l.length = n) (y x : Nat) (hx : x < n) (d : α) :
    L.flatten.getD (y * n + x) d = (L.getD y []).getD x d := by
  induction L generalizing y with
  | nil => simp
  | cons l L ih =>
    have hl : l.length = n := h l (List.mem_cons_self _ _)
    have hL : ∀ l' ∈ L, l'.length = n := fun l' hl' => h l' (List.mem_cons_of_mem _ hl')
    rw [List.flatten_cons]
    cases y with
    | zero =>
      rw [Nat.zero_mul, Nat.zero_add, List.getD_append _ _ _ _ (by omega)]
      simp
    | succ y =>
      rw [List.getD_append_right _ _ _ _ (by rw [hl, Nat.succ_mul]; omega), hl,
        show (y + 1) * n + x - n = y * n + x by rw [Nat.succ_mul]; omega, ih hL]
      simp

theorem getD_range_map {β : Type} (f : Nat → β) (n i : Nat) (hi : i < n) (d : β) :
    ((List.range n).map f).getD i d = f i := by
  rw [List.getD_eq_getElem _ _ (by simpa using hi)]
  simp

/-- C6, as the code has it: on a mismatch with `N ≤ 768` (and `data.txt`
opened) the file has exactly `N` lines of exactly `N` cells each, each cell
being the candidate value with `!` (differs) or `=` (matches); the loop over
`y` is the outer one and the loop over `x` the inner one, so cell `x` of line
`y`, which is the `(y*N + x)`-th cell written, is the cell of element index
`x*N + y`. -/
theorem test_artifact_layout (C T : List Nat) (N : Int) (size : Nat) (hN : N ≤ 768)
    (hne : memcmp C T size ≠ 0) :
    ∃ file : List Tok, (test C T N size true).file = some file ∧
      file = ((List.range N.toNat).map (fun (y : Nat) =>
        (List.range N.toNat).map (fun (x : Nat) =>
          Tok.cell (C.getD (x * N + y).toNat 0)
            (fne (C.getD (x * N + y).toNat 0) (T.getD (x * N + y).toNat 0))) ++
          [Tok.newline])).flatten ∧
      (fileLines file).length = N.toNat ∧
      (∀ line ∈ fileLines file, line.length = N.toNat ∧ ∀ t ∈ line, isCell t = true) ∧
      ∀ x y : Nat, x < N.toNat → y < N.toNat →
        ((fileLines file).getD y []).getD x Tok.newline =
            Tok.cell (C.getD (x * N + y).toNat 0)
              (fne (C.getD (x * N + y).toNat 0) (T.getD (x * N + y).toNat 0)) ∧
        (emittedCells file).getD (y * N.toNat + x) Tok.newline =
            Tok.cell (C.getD (x * N + y).toNat 0)
              (fne (C.getD (x * N + y).toNat 0) (T.getD (x * N + y).toNat 0)) := by
  rw [test_small C T N size hN hne]
  refine ⟨_, rfl, rfl, ?_, ?_, ?_⟩
  · rw [fileLines, splitLines_file]
    simp
  · intro line hline
    rw [fileLines, splitLines_file] at hline
    obtain ⟨y, -, rfl⟩ := List.mem_map.1 hline
    refine ⟨by simp, ?_⟩
    intro t ht
    obtain ⟨x, -, rfl⟩ := List.mem_map.1 ht
    rfl
  · intro x y hx hy
    have hline : ((fileLines ((List.range N.toNat).map (lineToks C T N)).flatten).getD y []).getD x
        Tok.newline = cellAt C T N y x := by
      rw [fileLines, splitLines_file, getD_range_map _ _ _ hy, getD_range_map _ _ _ hx]
    refine ⟨hline, ?_⟩
    rw [emittedCells_file, flatten_getD_uniform _ N.toNat (by
      intro l hl
      obtain ⟨y', -, rfl⟩ := List.mem_map.1 hl
      simp) y x hx, getD_range_map _ _ _ hy, getD_range_map _ _ _ hx]
    rfl

/-- C6, witness: 2 x 2 buffers (1.0, 2.0, 3.0, 4.0) and (1.0, 2.0, 3.0, 5.0). -/
theorem test_artifact_layout_witness :
    (2 : Int) ≤ 768 ∧
    memcmp [1065353216, 1073741824, 1077936128, 1082130432]
      [1065353216, 1073741824, 1077936128, 1084227584] 16 ≠ 0 ∧
    ∃ file, (test [1065353216, 1073741824, 1077936128, 1082130432]
        [1065353216, 1073741824, 1077936128, 1084227584] 2 16 true).file = some file ∧
      (fileLines file).length = 2 :=
  ⟨by decide, by decide,
   (test_artifact_layout [1065353216, 1073741824, 1077936128, 1082130432]
     [1065353216, 1073741824, 1077936128, 1084227584] 2 16 (by decide) (by decide)).imp
     (fun _ h => ⟨h.1, h.2.2.1⟩)⟩

/-- C6, as stated, fails: for the 2 x 2 buffers (1.0, 2.0, 3.0, 4.0) and
(1.0, 2.0, 3.0, 5.0) the cells are written in the order of elements 0, 2, 1,
3; the second cell written is that of element 2 (3.0), not of element 1
(2.0), so the cells are not in storage order. -/
theorem test_artifact_not_storage_order :
    (test [1065353216, 1073741824, 1077936128, 1082130432]
      [1065353216, 1073741824, 1077936128, 1084227584] 2 16 true).file =
        some [Tok.cell 1065353216 false, Tok.cell 1077936128 false, Tok.newline,
              Tok.cell 1073741824 false, Tok.cell 1082130432 true, Tok.newline] ∧
    storageOrderCells [1065353216, 1073741824, 1077936128, 1082130432]
      [1065353216, 1073741824, 1077936128, 1084227584] 4 =
        [Tok.cell 1065353216 false, Tok.cell 1073741824 false,
         Tok.cell 1077936128 false, Tok.cell 1082130432 true] ∧
    emittedCells (((test [1065353216, 1073741824, 1077936128, 1082130432]
      [1065353216, 1073741824, 1077936128, 1084227584] 2 16 true).file).getD []) ≠
      storageOrderCells [1065353216, 1073741824, 1077936128, 1082130432]
        [1065353216, 1073741824, 1077936128, 1084227584] 4 := by
  decide

/-! ## Trace decoder -/

theorem traceStep_foldl (P : Int) (blockY blockX : Nat) (st : Int × List TraceRow) (m : Nat) :
    (List.range m).foldl (traceStep P blockY blockX) st =
      (st.1 + (m : Int) * P,
       st.2 ++ (List.range m).map (fun (tid : Nat) => rowFrom (st.1 + (tid : Int) * P) blockY blockX tid)) := by
  induction m with
  | zero => simp
  | succ m ih =>
    rw [range_foldl_succ, ih, List.range_succ, List.map_append]
    simp only [traceStep, rowFrom, List.map_cons, List.map_nil, List.append_assoc]
    refine Prod.ext ?_ rfl
    simp only
    push_cast
    ring

theorem traceBlock_foldl (P : Int) (Tn blockY : Nat) (st : Int × List TraceRow) (m : Nat) :
    (List.range m).foldl (fun st blockX =>
        (List.range Tn).foldl (traceStep P blockY blockX) st) st =
      (st.1 + (m : Int) * ((Tn : Int) * P),
       st.2 ++ ((List.range m).map (fun (blockX : Nat) => (List.range Tn).map (fun (tid : Nat) =>
          rowFrom (st.1 + (((blockX * Tn + tid : Nat) : Int)) * P) blockY blockX tid))).flatten) := by
  induction m with
  | zero => simp
  | succ m ih =>
    rw [range_foldl_succ, ih, traceStep_foldl, List.range_succ, List.map_append,
      List.flatten_append]
    refine Prod.ext ?_ ?_
    · simp only
      push_cast
      ring
    · simp only [List.map_cons, List.map_nil, List.flatten_cons, List.flatten_nil,
        List.append_nil, List.append_assoc]
      congr 2
      apply List.map_congr_left
      intro tid _
      congr 1
      push_cast
      ring

theorem traceGrid_foldl (P : Int) (G Tn : Nat) (st : Int × List TraceRow) (m : Nat) :
    (List.range m).foldl (fun st blockY =>
        (List.range G).foldl (fun st blockX =>
          (List.range Tn).foldl (traceStep P blockY blockX) st) st) st =
      (st.1 + (m : Int) * ((G : Int) * ((Tn : Int) * P)),
       st.2 ++ ((List.range m).map (fun (blockY : Nat) => ((List.range G).map (fun (blockX : Nat) =>
          (List.range Tn).map (fun (tid : Nat) =>
            rowFrom (st.1 + ((recordIndex G Tn blockY blockX tid : Nat) : Int) * P)
              blockY blockX tid))).flatten)).flatten) := by
  induction m with
  | zero => simp
  | succ m ih =>
    rw [range_foldl_succ, ih, traceBlock_foldl, List.range_succ, List.map_append,
      List.flatten_append]
    refine Prod.ext ?_ ?_
    · simp only
      push_cast
      ring
    · simp only [List.map_cons, List.map_nil, List.flatten_cons, List.flatten_nil,
        List.append_nil, List.append_assoc]
      congr 3
      apply List.map_congr_left
      intro blockX _
      apply List.map_congr_left
      intro tid _
      congr 1
      unfold recordIndex
      push_cast
      ring

/-- The rows of the decoder, in `(by, bx, tid)` order; the row of record `rec`
reads at offsets `rec * printVars + 0 .. rec * printVars + 7`. -/
theorem traceDecoder_eq (gridDimXY threads printVars : Int) :
    traceDecoder gridDimXY threads printVars =
      ((List.range gridDimXY.toNat).map (fun (blockY : Nat) =>
        ((List.range gridDimXY.toNat).map (fun (blockX : Nat) =>
          (List.range threads.toNat).map (fun (tid : Nat) =>
            rowFrom (((recordIndex gridDimXY.toNat threads.toNat blockY blockX tid : Nat) : Int)
              * printVars) blockY blockX tid))).flatten)).flatten := by
  unfold traceDecoder
  rw [traceGrid_foldl]
  simp

theorem mem_traceDecoder (gridDimXY threads printVars : Int) (row : TraceRow) :
    row ∈ traceDecoder gridDimXY threads printVars ↔
      ∃ blockY blockX tid, blockY < gridDimXY.toNat ∧ blockX < gridDimXY.toNat ∧
        tid < threads.toNat ∧
        row = rowFrom (((recordIndex gridDimXY.toNat threads.toNat blockY blockX tid : Nat) : Int)
          * printVars) blockY blockX tid := by
  rw [traceDecoder_eq]
  simp only [List.mem_flatten, List.mem_map, List.mem_range]
  constructor
  · rintro ⟨l, ⟨blockY, hy, rfl⟩, hrow⟩
    simp only [List.mem_flatten, List.mem_map, List.mem_range] at hrow
    obtain ⟨l2, ⟨blockX, hx, rfl⟩, hrow⟩ := hrow
    simp only [List.mem_map, List.mem_range] at hrow
    obtain ⟨tid, ht, rfl⟩ := hrow
    exact ⟨blockY, blockX, tid, hy, hx, ht, rfl⟩
  · rintro ⟨blockY, blockX, tid, hy, hx, ht, rfl⟩
    refine ⟨_, ⟨blockY, hy, rfl⟩, ?_⟩
    simp only [List.mem_flatten, List.mem_map, List.mem_range]
    refine ⟨_, ⟨blockX, hx, rfl⟩, ?_⟩
    simp only [List.mem_map, List.mem_range]
    exact ⟨tid, ht, rfl⟩

theorem recordIndex_lt (G Tn blockY blockX tid : Nat) (hy : blockY < G) (hx : blockX < G)
    (ht : tid < Tn) : recordIndex G Tn blockY blockX tid + 1 ≤ G * G * Tn := by
  unfold recordIndex
  have h1 : blockY * G + blockX + 1 ≤ G * G := by
    have : (blockY + 1) * G ≤ G * G := Nat.mul_le_mul_right G hy
    rw [Nat.succ_mul] at this
    omega
  have h2 : (blockY * G + blockX + 1) * Tn ≤ G * G * Tn := Nat.mul_le_mul_right Tn h1
  rw [Nat.succ_mul] at h2
  omega

theorem recordIndex_last (G Tn : Nat) (hG : 1 ≤ G) (hT : 1 ≤ Tn) :
    recordIndex G Tn (G - 1) (G - 1) (Tn - 1) + 1 = G * G * Tn := by
  obtain ⟨G', rfl⟩ : ∃ G', G = G' + 1 := ⟨G - 1, by omega⟩
  obtain ⟨T', rfl⟩ : ∃ T', Tn = T' + 1 := ⟨Tn - 1, by omega⟩
  unfold recordIndex
  simp only [Nat.add_sub_cancel]
  ring

theorem traceDecoder_length (gridDimXY threads printVars : Int) :
    (traceDecoder gridDimXY threads printVars).length =
      gridDimXY.toNat * gridDimXY.toNat * threads.toNat := by
  rw [traceDecoder_eq]
  simp [List.length_flatten, Function.comp_def, Nat.mul_assoc]

/-- The rows of the decoder measured against the mathematical product
`gridDimXY * gridDimXY * threads * printVars`: the explicit list of rows, their
number, the bound on the reads when `printVars ≥ 8`, and the last row. -/
theorem traceDecoder_reads_ideal (gridDimXY threads printVars : Int)
    (hg : 1 ≤ gridDimXY) (ht : 1 ≤ threads) (hP1 : 1 ≤ printVars) (hP2 : printVars ≤ 100) :
    traceDecoder gridDimXY threads printVars =
      ((List.range gridDimXY.toNat).map (fun (blockY : Nat) =>
        ((List.range gridDimXY.toNat).map (fun (blockX : Nat) =>
          (List.range threads.toNat).map (fun (tid : Nat) =>
            rowFrom (((recordIndex gridDimXY.toNat threads.toNat blockY blockX tid : Nat) : Int)
              * printVars) blockY blockX tid))).flatten)).flatten ∧
    ((traceDecoder gridDimXY threads printVars).length : Int) =
      gridDimXY * gridDimXY * threads ∧
    ((∀ row ∈ traceDecoder gridDimXY threads printVars, ∀ off ∈ row.reads,
        0 ≤ off ∧ off < gridDimXY * gridDimXY * threads * printVars) ↔ 8 ≤ printVars) ∧
    (rowFrom ((gridDimXY * gridDimXY * threads - 1) * printVars)
        (gridDimXY.toNat - 1) (gridDimXY.toNat - 1) (threads.toNat - 1)
      ∈ traceDecoder gridDimXY threads printVars) ∧
    (printVars < 8 →
      gridDimXY * gridDimXY * threads * printVars ≤
        (gridDimXY * gridDimXY * threads - 1) * printVars + 7) := by
  obtain ⟨G, rfl⟩ : ∃ G : Nat, gridDimXY = (G : Int) := ⟨gridDimXY.toNat, by omega⟩
  obtain ⟨Tn, rfl⟩ : ∃ Tn : Nat, threads = (Tn : Int) := ⟨threads.toNat, by omega⟩
  have hG : 1 ≤ G := by omega
  have hT : 1 ≤ Tn := by omega
  simp only [Int.toNat_ofNat]
  have hlast := recordIndex_last G Tn hG hT
  have hlastZ : ((recordIndex G Tn (G - 1) (G - 1) (Tn - 1) : Nat) : Int) =
      (G : Int) * G * Tn - 1 := by
    have : ((recordIndex G Tn (G - 1) (G - 1) (Tn - 1) + 1 : Nat) : Int) =
        ((G * G * Tn : Nat) : Int) := by rw [hlast]
    push_cast at this
    linarith
  have hmem : rowFrom (((G : Int) * G * Tn - 1) * printVars) (G - 1) (G - 1) (Tn - 1)
      ∈ traceDecoder (G : Int) (Tn : Int) printVars := by
    rw [mem_traceDecoder]
    simp only [Int.toNat_ofNat]
    exact ⟨G - 1, G - 1, Tn - 1, by omega, by omega, by omega, by rw [hlastZ]⟩
  refine ⟨?_, ?_, ?_, hmem, ?_⟩
  · have := traceDecoder_eq (G : Int) (Tn : Int) printVars
    simpa only [Int.toNat_ofNat] using this
  · rw [traceDecoder_length]
    simp only [Int.toNat_ofNat]
    push_cast
    rfl
  · constructor
    · intro h
      have h7 := (h _ hmem (((G : Int) * G * Tn - 1) * printVars + 7)
        (by simp [rowFrom])).2
      by_contra hcon
      have : (G : Int) * G * Tn * printVars =
          ((G : Int) * G * Tn - 1) * printVars + printVars := by ring
      omega
    · intro hP row hrow off hoff
      rw [mem_traceDecoder] at hrow
      simp only [Int.toNat_ofNat] at hrow
      obtain ⟨blockY, blockX, tid, hy, hx, htid, rfl⟩ := hrow
      have hrec := recordIndex_lt G Tn blockY blockX tid hy hx htid
      generalize recordIndex G Tn blockY blockX tid = rec at hrec hoff
      have hrecZ : (rec : Int) + 1 ≤ (G : Int) * G * Tn := by exact_mod_cast hrec
      have hmul : ((rec : Int) + 1) * printVars ≤ (G : Int) * G * Tn * printVars :=
        mul_le_mul_of_nonneg_right hrecZ (by omega)
      have hnn : 0 ≤ (rec : Int) * printVars := mul_nonneg (by omega) (by omega)
      have hexp : ((rec : Int) + 1) * printVars = (rec : Int) * printVars + printVars := by ring
      simp only [rowFrom, List.mem_cons, List.mem_singleton, List.not_mem_nil, or_false] at hoff
      rcases hoff with h | h | h | h | h | h | h | h <;> subst h <;> constructor <;> omega
  · intro hP
    have : (G : Int) * G * Tn * printVars =
        ((G : Int) * G * Tn - 1) * printVars + printVars := by ring
    omega

/-- For every size `main` can pass and every accepted field count, `sizeD` is
`blocks * threads * printVars` ints of 4 bytes: the product fits an `int`. -/
theorem traceSizeD_main (kernel : String) (N printVars : Int) (hpos : 0 < N) (hN : N ≤ 5120)
    (hP1 : 1 ≤ printVars) (hP2 : printVars ≤ 100) :
    traceSizeD (launchGeometry kernel N).blocks (launchGeometry kernel N).threads printVars =
      (launchGeometry kernel N).gridDimXY * (launchGeometry kernel N).gridDimXY *
        (launchGeometry kernel N).threads * printVars * 4 := by
  obtain ⟨hb, hle⟩ := launchGeometry_blocks_main kernel N hpos hN
  obtain ⟨hlo, hhi⟩ := launchGeometry_grid_bounds kernel N hpos
  have hP0 : printVars ≠ 0 := by omega
  rw [traceSizeD, if_pos hP0, hb, wrap32_eq_self_iff]
  rcases launchGeometry_variant kernel N with ⟨hw, hth, -⟩ | ⟨hw, hth, -⟩
  · rw [hth]
    rw [hw] at hlo hhi
    generalize (launchGeometry kernel N).gridDimXY = g at *
    have hg0 : 1 ≤ g := by omega
    have hg2 : g * g ≤ 80 * 80 := by nlinarith
    have hgg : 0 ≤ g * g := by nlinarith
    have h3 : g * g * 64 * printVars ≤ 80 * 80 * 64 * 100 := by nlinarith
    have h4 : 0 ≤ g * g * 64 * printVars := by positivity
    constructor <;> omega
  · rw [hth]
    rw [hw] at hlo hhi
    generalize (launchGeometry kernel N).gridDimXY = g at *
    have hg0 : 1 ≤ g := by omega
    have hg1 : g ≤ 40 := by omega
    have hg2 : g * g ≤ 40 * 40 := by nlinarith
    have hgg : 0 ≤ g * g := by nlinarith
    have h3 : g * g * 256 * printVars ≤ 40 * 40 * 256 * 100 := by nlinarith
    have h4 : 0 ≤ g * g * 256 * printVars := by positivity
    constructor <;> omega

theorem wrap32_add_mul (z m : Int) : wrap32 (z + 4294967296 * m) = wrap32 z := by
  unfold wrap32
  omega

/-- Wrapping an `int` product whose first factor was itself wrapped gives the
mathematical product reduced to 32 bits. -/
theorem wrap32_wrap32_mul (a c : Int) : wrap32 (wrap32 a * c) = wrap32 (a * c) := by
  obtain ⟨k, hk⟩ : ∃ k : Int, wrap32 a = a + 4294967296 * k :=
    ⟨-((a + 2147483648) / 4294967296), by unfold wrap32; omega⟩
  rw [hk, show (a + 4294967296 * k) * c = a * c + 4294967296 * (k * c) by ring, wrap32_add_mul]

theorem assemblySgemm_trace (kernel : String) (N R printVars : Int) (hP : printVars ≠ 0) :
    (assemblySgemm kernel N R printVars).trace =
      traceDecoder (launchGeometry kernel N).gridDimXY (launchGeometry kernel N).threads
        printVars := by
  simp [assemblySgemm, hP]

/-- The buffer size of a run: the mathematical product
`gridDimXY * gridDimXY * threads * printVars * 4` reduced to 32 bits. -/
theorem assemblySgemm_sizeD (kernel : String) (N R printVars : Int) (hP : printVars ≠ 0) :
    (assemblySgemm kernel N R printVars).sizeD =
      wrap32 ((launchGeometry kernel N).gridDimXY * (launchGeometry kernel N).gridDimXY *
        (launchGeometry kernel N).threads * printVars * 4) := by
  have h1 : (assemblySgemm kernel N R printVars).sizeD =
      traceSizeD (launchGeometry kernel N).blocks (launchGeometry kernel N).threads printVars :=
    rfl
  have h2 : (launchGeometry kernel N).blocks =
      wrap32 ((launchGeometry kernel N).gridDimXY * (launchGeometry kernel N).gridDimXY) := rfl
  rw [h1, traceSizeD, if_pos hP, h2]
  generalize (launchGeometry kernel N).gridDimXY = g
  generalize (launchGeometry kernel N).threads = t
  rw [show wrap32 (g * g) * t * printVars * 4 = wrap32 (g * g) * (t * printVars * 4) by ring,
    wrap32_wrap32_mul]
  congr 1
  ring

/-- C10, as the code has it: the decoder prints one row per record, in
`(by, bx, tid)` order, the row of record `rec` reading the 8 ints at offsets
`rec*P + 0 .. rec*P + 7`.  The buffer has `sizeD` bytes, that is `sizeD / 4`
ints, where `sizeD` is the `int` value of `blocks * threads * P * 4`; it holds
`blocks * threads * P` ints when that product times 4 fits an `int`, which is
so for every size `main` passes (`N ≤ 5120`).  For every positive `N`, either
kernel and every accepted field count `P` in [1,100], all reads fall inside
the buffer if and only if `P ≥ 8` and `gridDimXY * gridDimXY * threads * P * 4`
fits a 32 bit `int`. -/
theorem assemblySgemm_trace_reads_iff (kernel : String) (N R printVars : Int) (hN : 0 < N)
    (hP1 : 1 ≤ printVars) (hP2 : printVars ≤ 100) :
    (assemblySgemm kernel N R printVars).trace =
      ((List.range (assemblySgemm kernel N R printVars).geometry.gridDimXY.toNat).map
        (fun (blockY : Nat) =>
          ((List.range (assemblySgemm kernel N R printVars).geometry.gridDimXY.toNat).map
            (fun (blockX : Nat) =>
              (List.range (assemblySgemm kernel N R printVars).geometry.threads.toNat).map
                (fun (tid : Nat) =>
                  rowFrom (((recordIndex
                      (assemblySgemm kernel N R printVars).geometry.gridDimXY.toNat
                      (assemblySgemm kernel N R printVars).geometry.threads.toNat
                      blockY blockX tid : Nat) : Int) * printVars)
                    blockY blockX tid))).flatten)).flatten ∧
    (((assemblySgemm kernel N R printVars).trace.length : Int) =
      (assemblySgemm kernel N R printVars).geometry.gridDimXY *
        (assemblySgemm kernel N R printVars).geometry.gridDimXY *
        (assemblySgemm kernel N R printVars).geometry.threads) ∧
    ((assemblySgemm kernel N R printVars).geometry.gridDimXY *
        (assemblySgemm kernel N R printVars).geometry.gridDimXY *
        (assemblySgemm kernel N R printVars).geometry.threads * printVars * 4 < 2147483648 →
      (assemblySgemm kernel N R printVars).geometry.blocks =
          (assemblySgemm kernel N R printVars).geometry.gridDimXY *
            (assemblySgemm kernel N R printVars).geometry.gridDimXY ∧
      (assemblySgemm kernel N R printVars).sizeD / 4 =
          (assemblySgemm kernel N R printVars).geometry.blocks *
            (assemblySgemm kernel N R printVars).geometry.threads * printVars) ∧
    (N ≤ 5120 →
      (assemblySgemm kernel N R printVars).geometry.gridDimXY *
        (assemblySgemm kernel N R printVars).geometry.gridDimXY *
        (assemblySgemm kernel N R printVars).geometry.threads * printVars * 4 < 2147483648) ∧
    ((∀ row ∈ (assemblySgemm kernel N R printVars).trace, ∀ off ∈ row.reads,
        0 ≤ off ∧ off < (assemblySgemm kernel N R printVars).sizeD / 4) ↔
      (8 ≤ printVars ∧
        (assemblySgemm kernel N R printVars).geometry.gridDimXY *
          (assemblySgemm kernel N R printVars).geometry.gridDimXY *
          (assemblySgemm kernel N R printVars).geometry.threads * printVars * 4 < 2147483648)) := by
  have hP0 : printVars ≠ 0 := by omega
  have hgeo : (assemblySgemm kernel N R printVars).geometry = launchGeometry kernel N := rfl
  have hblocks : (launchGeometry kernel N).blocks =
      wrap32 ((launchGeometry kernel N).gridDimXY * (launchGeometry kernel N).gridDimXY) := rfl
  obtain ⟨hlo, hhi⟩ := launchGeometry_grid_bounds kernel N hN
  have hthr : 1 ≤ (launchGeometry kernel N).threads ∧ 0 < (launchGeometry kernel N).width := by
    rcases launchGeometry_variant kernel N with ⟨h1, h2, -⟩ | ⟨h1, h2, -⟩ <;> omega
  have hg : 1 ≤ (launchGeometry kernel N).gridDimXY := by
    by_contra hcon
    have h0 : (launchGeometry kernel N).gridDimXY ≤ 0 := by omega
    have := mul_nonpos_of_nonpos_of_nonneg h0 hthr.2.le
    omega
  have hmainfit : N ≤ 5120 →
      (launchGeometry kernel N).gridDimXY * (launchGeometry kernel N).gridDimXY *
        (launchGeometry kernel N).threads * printVars * 4 < 2147483648 := by
    intro hN5
    have hs := traceSizeD_main kernel N printVars hN hN5 hP1 hP2
    rw [traceSizeD, if_pos hP0, (launchGeometry_blocks_main kernel N hN hN5).1] at hs
    have := (wrap32_eq_self_iff _).1 hs
    exact this.2
  rw [assemblySgemm_trace kernel N R printVars hP0, assemblySgemm_sizeD kernel N R printVars hP0,
    hgeo, hblocks]
  obtain ⟨hexp, hlen, hideal, hmem, -⟩ :=
    traceDecoder_reads_ideal (launchGeometry kernel N).gridDimXY
      (launchGeometry kernel N).threads printVars hg hthr.1 hP1 hP2
  generalize (launchGeometry kernel N).gridDimXY = g at *
  generalize (launchGeometry kernel N).threads = t at *
  have hgg : 1 ≤ g * g := by nlinarith
  have hggt : 1 ≤ g * g * t := by nlinarith [hthr.1]
  have htotal : 1 ≤ g * g * t * printVars := by nlinarith
  have h4 : g * g * t * printVars * 4 = 4 * (g * g * t * printVars) := by ring
  have hlastoff : (g * g * t - 1) * printVars + 7 = g * g * t * printVars - printVars + 7 := by
    ring
  refine ⟨hexp, hlen, ?_, hmainfit, ?_⟩
  · intro hfit
    have hb : wrap32 (g * g) = g * g := by
      rw [wrap32_eq_self_iff]
      have : g * g ≤ g * g * t * printVars * 4 := by nlinarith [hthr.1]
      constructor <;> omega
    refine ⟨hb, ?_⟩
    rw [hb, h4] at *
    generalize g * g * t * printVars = total at *
    unfold wrap32
    omega
  · constructor
    · intro h
      have h7 := (h _ hmem ((g * g * t - 1) * printVars + 7) (by simp [rowFrom])).2
      rw [hlastoff, h4] at h7
      rw [h4]
      generalize g * g * t * printVars = total at *
      unfold wrap32 at h7
      omega
    · rintro ⟨hP8, hfit⟩ row hrow off hoff
      have hb := (hideal.2 hP8) row hrow off hoff
      rw [h4] at hfit ⊢
      generalize g * g * t * printVars = total at *
      unfold wrap32
      omega

/-- C10, witness: `N = 128` with the 128-wide kernel (one block of 256
threads) and 3 fields per thread. -/
theorem assemblySgemm_trace_reads_iff_witness :
    (0 : Int) < 128 ∧ (1 : Int) ≤ 3 ∧ (3 : Int) ≤ 100 ∧
    ((∀ row ∈ (assemblySgemm "sgemm_kernel_128" 128 1 3).trace, ∀ off ∈ row.reads,
        0 ≤ off ∧ off < (assemblySgemm "sgemm_kernel_128" 128 1 3).sizeD / 4) ↔
      ((8 : Int) ≤ 3 ∧
        (assemblySgemm "sgemm_kernel_128" 128 1 3).geometry.gridDimXY *
          (assemblySgemm "sgemm_kernel_128" 128 1 3).geometry.gridDimXY *
          (assemblySgemm "sgemm_kernel_128" 128 1 3).geometry.threads * 3 * 4 < 2147483648)) :=
  ⟨by decide, by decide, by decide,
   (assemblySgemm_trace_reads_iff "sgemm_kernel_128" 128 1 3 (by decide) (by decide)
     (by decide)).2.2.2.2⟩

/-- C10, as stated, fails: for `N = 65536` with the 128-wide kernel (a grid of
512 x 512 blocks of 256 threads) and `P = 17 ≥ 8`, `blocks * threads * P` is
1140850688 ints but `sizeD` is 268435456 bytes, a buffer of 67108864 ints, and
the last record is read at offset 1140850678, past its end. -/
theorem assemblySgemm_trace_sizeD_overflow :
    (0 : Int) < 65536 ∧ (8 : Int) ≤ 17 ∧ (17 : Int) ≤ 100 ∧
    (assemblySgemm "sgemm_kernel_128" 65536 1 17).geometry.gridDimXY = 512 ∧
    (assemblySgemm "sgemm_kernel_128" 65536 1 17).geometry.threads = 256 ∧
    (assemblySgemm "sgemm_kernel_128" 65536 1 17).geometry.blocks = 262144 ∧
    (assemblySgemm "sgemm_kernel_128" 65536 1 17).sizeD = 268435456 ∧
    (assemblySgemm "sgemm_kernel_128" 65536 1 17).sizeD / 4 ≠
      (assemblySgemm "sgemm_kernel_128" 65536 1 17).geometry.blocks *
        (assemblySgemm "sgemm_kernel_128" 65536 1 17).geometry.threads * 17 ∧
    rowFrom 1140850671 511 511 255 ∈ (assemblySgemm "sgemm_kernel_128" 65536 1 17).trace ∧
    ¬ (∀ row ∈ (assemblySgemm "sgemm_kernel_128" 65536 1 17).trace, ∀ off ∈ row.reads,
        0 ≤ off ∧ off < (assemblySgemm "sgemm_kernel_128" 65536 1 17).sizeD / 4) := by
  have hsize : (assemblySgemm "sgemm_kernel_128" 65536 1 17).sizeD = 268435456 := by decide
  have hg : (launchGeometry "sgemm_kernel_128" 65536).gridDimXY = 512 := by decide
  have ht : (launchGeometry "sgemm_kernel_128" 65536).threads = 256 := by decide
  have hmem : rowFrom 1140850671 511 511 255 ∈
      (assemblySgemm "sgemm_kernel_128" 65536 1 17).trace := by
    rw [assemblySgemm_trace _ _ _ _ (by decide), hg, ht]
    exact (traceDecoder_reads_ideal 512 256 17 (by decide) (by decide) (by decide)
      (by decide)).2.2.2.1
  refine ⟨by decide, by decide, by decide, by decide, by decide, by decide, hsize, by decide,
    hmem, ?_⟩
  intro h
  have h7 := (h _ hmem (1140850671 + 7) (by simp [rowFrom])).2
  rw [hsize] at h7
  omega

end Sgemm
